import Mathlib

/-!
Verification development for the Setu bias-review core: a shallow embedding of
the human-in-the-loop (HITL) session manager (`utility/hitl_session_manager.py`),
the HITL API routes (`api/routes/bias_detection_hitl.py`) and the Nepali
sentence segmenter (`utility/pdf_processor.py`, `split_into_sentences`),
together with theorems settling the spec's claims about them.

Conventions of the embedding:
* Python strings are `String` (identifiers, statuses, categories) or
  `List Char` (segmenter text, where per-character processing matters);
  `len` on a Python `str` is the number of code points, i.e. `List.length`
  of the char list.
* The in-memory session dictionary is an association list
  `List (String × BiasReviewSession)`; `dict.get` is first-match lookup
  (keys are unique uuid4 strings in the source).
* In-place mutation of a session object held in the dictionary is modelled
  by replacing the value stored under its key.
* External collaborators (the Mistral suggestion gateway and the PDF
  renderer) are passed as function parameters returning `Except`, mirroring
  the source's success/error response objects.
* Python truthiness of `Optional[str]` (used by `update_sentence_status` for
  `approved_suggestion`, where both `None` and `""` are falsy) is `truthyStr`.
* Python truthiness of `Optional[bytes]` (used by `generate_debiased_pdf` for
  `original_pdf_bytes`, where both `None` and `b""` are falsy) is modelled by
  checking `Option.getD [] = []`.
-/

namespace Setu

/-- `api/schemas.py`: `BiasReviewItem`.  `confidence` is a float in the source;
no arithmetic is ever performed on it in the code under study, so it is
carried as a rational. -/
structure BiasReviewItem where
  sentence_id : String
  original_sentence : String
  is_biased : Bool
  category : String
  confidence : ℚ
  suggestion : Option String
  approved_suggestion : Option String
  status : String
  deriving DecidableEq, Repr

/-- `api/schemas.py`: `BiasReviewSession`. -/
structure BiasReviewSession where
  session_id : String
  original_filename : String
  sentences : List BiasReviewItem
  raw_text : String
  original_pdf_bytes : Option (List Nat)
  created_at : String
  status : String
  deriving DecidableEq, Repr

/-- The session manager's `self._sessions : Dict[str, BiasReviewSession]`. -/
abbrev SessionStore := List (String × BiasReviewSession)

/-- `dict.get(session_id)`: first-match lookup by key. -/
def lookupStore (store : SessionStore) (sid : String) : Option BiasReviewSession :=
  (store.find? (fun kv => kv.1 == sid)).map (·.2)

/-- In-place mutation of the session object stored under `sid`:
the dictionary keeps the same keys, the value under `sid` is replaced. -/
def setStore (store : SessionStore) (sid : String) (s : BiasReviewSession) : SessionStore :=
  store.map (fun kv => if kv.1 == sid then (kv.1, s) else kv)

/-- `self._sessions[session_id] = session`: dict assignment
(replaces the value if the key exists, appends otherwise). -/
def insertStore (store : SessionStore) (sid : String) (s : BiasReviewSession) : SessionStore :=
  if (store.find? (fun kv => kv.1 == sid)).isSome then setStore store sid s
  else store ++ [(sid, s)]

/-- Python truthiness of an `Optional[str]`: `None` and `""` are falsy. -/
def truthyStr : Option String → Bool
  | none => false
  | some s => !(s == "")

/-- The `for … if sentence.sentence_id == sentence_id: … return True` loop shape:
apply `f` to the first element satisfying `p`; `none` when no element matches. -/
def updateFirst (p : α → Bool) (f : α → α) : List α → Option (List α)
  | [] => none
  | x :: xs => if p x then some (f x :: xs) else (updateFirst p f xs).map (x :: ·)

/-- `HITLSessionManager.create_session`.  The source draws `session_id` from
`uuid.uuid4()` and `created_at` from the clock; both are parameters here. -/
def create_session (store : SessionStore) (session_id filename : String)
    (sentences : List BiasReviewItem) (raw_text : String)
    (original_pdf_bytes : Option (List Nat)) (created_at : String) :
    BiasReviewSession × SessionStore :=
  let session : BiasReviewSession :=
    { session_id := session_id
      original_filename := filename
      sentences := sentences
      raw_text := raw_text
      original_pdf_bytes := original_pdf_bytes
      created_at := created_at
      status := "pending_review" }
  (session, insertStore store session_id session)

/-- `HITLSessionManager.get_session`. -/
def get_session (store : SessionStore) (session_id : String) : Option BiasReviewSession :=
  lookupStore store session_id

/-- `HITLSessionManager.update_sentence_status`: sets the matched sentence's
`status`; overwrites `approved_suggestion` only when the argument is truthy;
promotes the session `pending_review → in_progress` when the sentence was
found. -/
def update_sentence_status (store : SessionStore) (session_id sentence_id status : String)
    (approved_suggestion : Option String) : Bool × SessionStore :=
  match get_session store session_id with
  | none => (false, store)
  | some session =>
    match updateFirst (fun s => s.sentence_id == sentence_id)
        (fun s =>
          { s with
            status := status
            approved_suggestion :=
              if truthyStr approved_suggestion then approved_suggestion
              else s.approved_suggestion }) session.sentences with
    | none => (false, store)
    | some newSentences =>
      (true, setStore store session_id
        { session with
          sentences := newSentences
          status := if session.status == "pending_review" then "in_progress"
                    else session.status })

/-- `HITLSessionManager.update_sentence_suggestion`: overwrites `suggestion`
and resets `status` to `"pending"`; the session status is not touched. -/
def update_sentence_suggestion (store : SessionStore) (session_id sentence_id : String)
    (new_suggestion : String) : Bool × SessionStore :=
  match get_session store session_id with
  | none => (false, store)
  | some session =>
    match updateFirst (fun s => s.sentence_id == sentence_id)
        (fun s => { s with suggestion := some new_suggestion, status := "pending" })
        session.sentences with
    | none => (false, store)
    | some newSentences =>
      (true, setStore store session_id { session with sentences := newSentences })

/-- Result of `HITLSessionManager.get_session_stats`. -/
structure SessionStats where
  total_sentences : Nat
  pending_count : Nat
  approved_count : Nat
  needs_regeneration_count : Nat
  deriving DecidableEq, Repr

/-- `HITLSessionManager.get_session_stats`. -/
def get_session_stats (store : SessionStore) (session_id : String) : Option SessionStats :=
  (get_session store session_id).map fun session =>
    { total_sentences := session.sentences.length
      pending_count := session.sentences.countP (fun s => s.status == "pending")
      approved_count := session.sentences.countP (fun s => s.status == "approved")
      needs_regeneration_count :=
        session.sentences.countP (fun s => s.status == "needs_regeneration") }

/-- `HITLSessionManager.is_session_ready_for_pdf`: `False` on a missing
session; otherwise `False` iff some sentence has `is_biased` and a status
other than `"approved"`. -/
def is_session_ready_for_pdf (store : SessionStore) (session_id : String) : Bool :=
  match get_session store session_id with
  | none => false
  | some session =>
    session.sentences.all (fun s => !(s.is_biased && !(s.status == "approved")))

/-- `HITLSessionManager.mark_session_completed`. -/
def mark_session_completed (store : SessionStore) (session_id : String) :
    Bool × SessionStore :=
  match get_session store session_id with
  | none => (false, store)
  | some session =>
    (true, setStore store session_id { session with status := "completed" })

/-! ### The HITL API routes (`api/routes/bias_detection_hitl.py`) -/

/-- Outcome of the `/approve-suggestion` route: the three `HTTPException`
branches and the two success responses. -/
inductive ApprovalOutcome where
  | sessionNotFound
  | sentenceNotFound
  | invalidAction
  | approvedOk
  | rejectedOk
  deriving DecidableEq, Repr

/-- `approve_suggestion` route: dispatches on `action`; `"approve"` forwards
the request's `approved_suggestion`, `"reject"` passes `None` and status
`"needs_regeneration"`. -/
def approve_suggestion (store : SessionStore) (session_id sentence_id action : String)
    (approved_suggestion : Option String) : ApprovalOutcome × SessionStore :=
  match get_session store session_id with
  | none => (.sessionNotFound, store)
  | some _ =>
    if action == "approve" then
      match update_sentence_status store session_id sentence_id "approved"
          approved_suggestion with
      | (true, store') => (.approvedOk, store')
      | (false, store') => (.sentenceNotFound, store')
    else if action == "reject" then
      match update_sentence_status store session_id sentence_id "needs_regeneration"
          none with
      | (true, store') => (.rejectedOk, store')
      | (false, store') => (.sentenceNotFound, store')
    else (.invalidAction, store)

/-- Outcome of the `/regenerate-suggestion` route. -/
inductive RegenOutcome where
  | sessionNotFound
  | sentenceNotFound
  | upstreamFailure (detail : String)
  | updateFailed
  | regeneratedOk (new_suggestion : String)
  deriving DecidableEq, Repr

/-- `regenerate_suggestion` route.  `gateway` models
`generate_debiased_sentence` applied to the target sentence's
`original_sentence` and `category`: `.ok s` is a response with
`success = True` and `suggestion = s`, `.error e` a response with
`success = False` and `error = e`.  On gateway failure the route raises
before any session mutation, with the gateway's error message interpolated
into the detail string. -/
def regenerate_suggestion (store : SessionStore) (session_id sentence_id : String)
    (gateway : String → String → Except String String) : RegenOutcome × SessionStore :=
  match get_session store session_id with
  | none => (.sessionNotFound, store)
  | some session =>
    match session.sentences.find? (fun s => s.sentence_id == sentence_id) with
    | none => (.sentenceNotFound, store)
    | some target =>
      match gateway target.original_sentence target.category with
      | .error e => (.upstreamFailure ("Failed to generate new suggestion: " ++ e), store)
      | .ok new_suggestion =>
        match update_sentence_suggestion store session_id sentence_id new_suggestion with
        | (true, store') => (.regeneratedOk new_suggestion, store')
        | (false, store') => (.updateFailed, store')

/-- Outcome of the `/generate-pdf` route. -/
inductive GeneratePDFOutcome where
  | sessionNotFound
  | incompleteReview (pending_count needs_regeneration_count : Nat)
  | missingOriginalPdf
  | renderFailure (msg : String)
  | rendered (pdf_bytes : List Nat) (changes_count : Nat)
  deriving DecidableEq, Repr

/-- `generate_debiased_pdf` route.  `renderer` models
`PDFRegenerator.regenerate_pdf` (an external collaborator, absent from the
core under study): `.ok (bytes, flags)` is a `(True, pdf_bytes, None,
sentence_details)` return with `flags` the `was_modified` entries, `.error m`
a failing return.  The readiness check precedes the original-bytes check;
the session is marked completed only after a successful render. -/
def generate_debiased_pdf (store : SessionStore) (session_id : String)
    (renderer : List Nat → List BiasReviewItem → String →
      Except String (List Nat × List Bool)) : GeneratePDFOutcome × SessionStore :=
  match get_session store session_id with
  | none => (.sessionNotFound, store)
  | some session =>
    if is_session_ready_for_pdf store session_id then
      if (session.original_pdf_bytes.getD []).isEmpty then (.missingOriginalPdf, store)
      else
        match renderer (session.original_pdf_bytes.getD []) session.sentences
            session.original_filename with
        | .error msg => (.renderFailure msg, store)
        | .ok (pdf_bytes, details) =>
          let marked := mark_session_completed store session_id
          (.rendered pdf_bytes (details.count true), marked.2)
    else
      match get_session_stats store session_id with
      | none => (.sessionNotFound, store)
      | some stats =>
        (.incompleteReview stats.pending_count stats.needs_regeneration_count, store)

/-! ### The segmenter (`utility/pdf_processor.py`, `PDFProcessor`) -/

/-- Python's `\s` / `str.strip()` whitespace over Unicode code points. -/
def isPySpace (c : Char) : Bool :=
  (0x9 ≤ c.toNat && c.toNat ≤ 0xD) || (0x1C ≤ c.toNat && c.toNat ≤ 0x1F) ||
  c.toNat == 0x20 || c.toNat == 0x85 || c.toNat == 0xA0 || c.toNat == 0x1680 ||
  (0x2000 ≤ c.toNat && c.toNat ≤ 0x200A) || c.toNat == 0x2028 || c.toNat == 0x2029 ||
  c.toNat == 0x202F || c.toNat == 0x205F || c.toNat == 0x3000

/-- The regex character class `[अ-हँ-ॿ]` of `split_into_sentences`:
the union of the ranges अ..ह (U+0905–U+0939) and ँ..ॿ (U+0901–U+097F). -/
def isNepaliChar (c : Char) : Bool :=
  (0x905 ≤ c.toNat && c.toNat ≤ 0x939) || (0x901 ≤ c.toNat && c.toNat ≤ 0x97F)

/-- The danda `।` (U+0964), the primary Nepali sentence terminator. -/
def isDanda (c : Char) : Bool := c == '।'

/-- The wider terminator class `[।.!?]` of the secondary and tertiary splits. -/
def isWideTerm (c : Char) : Bool := c == '।' || c == '.' || c == '!' || c == '?'

/-- `re.sub(r'\s+', ' ', text)`: every maximal whitespace run becomes one
space.  `prevWs` records whether the previous character was whitespace
(i.e. whether a run is already open). -/
def collapseWs (prevWs : Bool) : List Char → List Char
  | [] => []
  | c :: cs =>
    if isPySpace c then
      if prevWs then collapseWs true cs else ' ' :: collapseWs true cs
    else c :: collapseWs false cs

/-- Drop from the right end while `p` holds (for Python `str.strip`). -/
def dropEndWhile (p : Char → Bool) (l : List Char) : List Char :=
  (l.reverse.dropWhile p).reverse

/-- Python `str.strip(chars)` / `str.strip()`: drop `p`-characters from both
ends. -/
def pyStrip (p : Char → Bool) (l : List Char) : List Char :=
  dropEndWhile p (l.dropWhile p)

/-- `PDFProcessor.clean_text`: replace `\n` by a space, collapse whitespace
runs to single spaces, strip both ends. -/
def clean_text (l : List Char) : List Char :=
  pyStrip isPySpace (collapseWs false (l.map (fun c => if c == '\n' then ' ' else c)))

/-- The zero-width condition of the split patterns, evaluated on the text
after a terminator character: the tertiary pattern (`reqSp = true`) demands
`\s+`, i.e. at least one whitespace character; the primary/secondary
patterns (`la = true`) demand the lookahead `(?=[अ-हँ-ॿ])` after the
greedily consumed `\s*`. -/
def splitBoundary (la reqSp : Bool) (cs : List Char) : Bool :=
  (!reqSp || (match cs with
              | [] => false
              | d :: _ => isPySpace d)) &&
  (!la || (match cs.dropWhile isPySpace with
           | [] => false
           | d :: _ => isNepaliChar d))

/-- `re.split` for the three patterns of `split_into_sentences`: a match sits
immediately after a `term` character when `splitBoundary` accepts the rest;
the matched whitespace is consumed (`skip = true` while it is being
dropped).  Mirrors `re.split(r'(?<=T)\s*(?=L)', …)` (with `la = true`) and
`re.split(r'(?<=T)\s+', …)` (with `reqSp = true`). -/
def reSplit (term : Char → Bool) (la reqSp : Bool) (skip : Bool) :
    List Char → List (List Char)
  | [] => [[]]
  | c :: cs =>
    if skip && isPySpace c then reSplit term la reqSp true cs
    else if term c && splitBoundary la reqSp cs then
      [c] :: reSplit term la reqSp true cs
    else
      match reSplit term la reqSp false cs with
      | [] => [[c]]
      | s :: ss => (c :: s) :: ss

/-- The character set of the `strip(' ।.!?')` call in
`split_into_sentences`. -/
def stripSetChar (c : Char) : Bool :=
  c == ' ' || c == '।' || c == '.' || c == '!' || c == '?'

/-- The per-candidate post-processing of `split_into_sentences`:
`cleaned = s.strip(' ।.!?').strip()`; keep when `cleaned` is non-empty with
`len(cleaned) > 3`, re-appending the danda.  (The source's inner
`if s.rstrip().endswith('।')` branch appends `cleaned + '।'` on both arms.) -/
def postCandidate (s : List Char) : Option (List Char) :=
  let cleaned := pyStrip isPySpace (pyStrip stripSetChar s)
  if !cleaned.isEmpty && 3 < cleaned.length then some (cleaned ++ ['।']) else none

/-- `PDFProcessor.split_into_sentences`: clean, three layered splits (each
fallback used only when the previous layer yields at most one segment),
then post-processing. -/
def split_into_sentences (text : List Char) : List (List Char) :=
  let t := clean_text text
  if t.isEmpty then []
  else
    let layer1 := reSplit isDanda true false false t
    let layer2 := if layer1.length ≤ 1 then reSplit isWideTerm true false false t
                  else layer1
    let layer3 := if layer2.length ≤ 1 then reSplit isWideTerm false true false t
                  else layer2
    layer3.filterMap postCandidate

/-- `" ".join(sentences)`. -/
def joinSp : List (List Char) → List Char
  | [] => []
  | [s] => s
  | s :: rest => s ++ ' ' :: joinSp rest

/-- The whitespace-state left by a character list: the state `collapseWs`
would carry past it, starting from `b`. -/
def endWs (b : Bool) : List Char → Bool
  | [] => b
  | c :: cs => endWs (isPySpace c) cs

/-- No two adjacent whitespace characters. -/
def noWsRun : List Char → Bool
  | [] => true
  | [_] => true
  | a :: b :: r => !(isPySpace a && isPySpace b) && noWsRun (b :: r)

/-- Shape of a sentence body on which re-segmentation is exact: longer than
the minimum threshold, free of sentence terminators, whitespace only as
isolated plain spaces, and ends that survive both strips of the
post-processing. -/
def canonicalCore (c : List Char) : Bool :=
  decide (3 < c.length) &&
  c.all (fun ch => !isWideTerm ch && (!isPySpace ch || ch == ' ')) &&
  noWsRun c &&
  (match c with
   | [] => false
   | h :: _ => !isPySpace h && !stripSetChar h) &&
  (match c.getLast? with
   | none => false
   | some g => !isPySpace g && !stripSetChar g)

/-- A canonical output sentence: a canonical body followed by the danda. -/
def canonicalSentence (s : List Char) : Bool :=
  match s.getLast? with
  | some d => d == '।' && canonicalCore s.dropLast
  | none => false

/-- Whether a sentence begins with a letter of the target script. -/
def startsNepali (s : List Char) : Bool :=
  match s with
  | [] => false
  | h :: _ => isNepaliChar h

/-! ### Concrete fixtures used by witnesses and counterexamples -/

/-- A review item with the fields the claims vary; the immutable fields are
fixed representative values. -/
def mkItem (id : String) (biased : Bool) (st : String) (sug app : Option String) :
    BiasReviewItem :=
  { sentence_id := id
    original_sentence := "मूल वाक्य हो।"
    is_biased := biased
    category := if biased then "gender" else "neutral"
    confidence := 1
    suggestion := sug
    approved_suggestion := app
    status := st }

/-- A session holding `items` with session status `st`. -/
def mkSession (items : List BiasReviewItem) (st : String) : BiasReviewSession :=
  { session_id := "s1"
    original_filename := "doc.pdf"
    sentences := items
    raw_text := "मूल वाक्य हो।"
    original_pdf_bytes := some [37, 80, 68, 70]
    created_at := "2026-01-01T00:00:00"
    status := st }

/-- A one-session store under key `"s1"`. -/
def mkStore (items : List BiasReviewItem) (st : String) : SessionStore :=
  [("s1", mkSession items st)]

/-- The review item a later reader of the store observes (session lookup
followed by the first-match sentence lookup). -/
def itemAfter (store : SessionStore) (sid iid : String) : Option BiasReviewItem :=
  (get_session store sid).bind (fun s => s.sentences.find? (fun it => it.sentence_id == iid))

/-- A renderer stub that succeeds with fixed bytes and one unmodified
sentence detail. -/
def okRenderer : List Nat → List BiasReviewItem → String →
    Except String (List Nat × List Bool) :=
  fun _ _ _ => .ok ([1, 2], [false])

/-- A renderer stub that fails. -/
def errRenderer : List Nat → List BiasReviewItem → String →
    Except String (List Nat × List Bool) :=
  fun _ _ _ => .error "render boom"

/-- A suggestion-gateway stub that fails as when the LLM client is missing. -/
def errGateway : String → String → Except String String :=
  fun _ _ => .error "LLM unavailable"

/-- Items for the C1 witness: a biased approved item and a non-biased item
whose status is still `"pending"`. -/
def readyItems : List BiasReviewItem :=
  [mkItem "b1" true "approved" (some "सुझाव वाक्य।") (some "सुझाव वाक्य।"),
   mkItem "n1" false "pending" none none]

/-- Store for the C1 witness. -/
def readyStore : SessionStore := mkStore readyItems "in_progress"

/-- Item for the C2 counterexample: biased, pending, with a suggestion and
no approved suggestion yet. -/
def approveNoTextItems : List BiasReviewItem :=
  [mkItem "i1" true "pending" (some "सुझाव वाक्य।") none]

/-- Store for the C2 counterexample and witness. -/
def approveNoTextStore : SessionStore := mkStore approveNoTextItems "pending_review"

/-- Item for the C10 witness: an earlier approve froze an approved
suggestion; a fresh suggestion has since been regenerated. -/
def frozenItems : List BiasReviewItem :=
  [mkItem "b1" true "approved" (some "नयाँ सुझाव हो।") (some "जमेको सुझाव हो।")]

/-- Store for the C10 witness. -/
def frozenStore : SessionStore := mkStore frozenItems "in_progress"

/-- Item for the C3 and C5 witnesses: rejected, awaiting regeneration. -/
def regenItems : List BiasReviewItem :=
  [mkItem "b1" true "needs_regeneration" (some "पुरानो सुझाव हो।") none]

/-- Store for the C3 and C5 witnesses. -/
def regenStore : SessionStore := mkStore regenItems "in_progress"

/-- Spec scenario B: three biased items, two approved, one needing
regeneration. -/
def scenarioBItems : List BiasReviewItem :=
  [mkItem "b1" true "approved" (some "सुझाव एक हो।") (some "सुझाव एक हो।"),
   mkItem "b2" true "approved" (some "सुझाव दुई हो।") (some "सुझाव दुई हो।"),
   mkItem "b3" true "needs_regeneration" (some "सुझाव तीन हो।") none]

/-- Store for the C6 witness. -/
def scenarioBStore : SessionStore := mkStore scenarioBItems "in_progress"

/-- Store for the C4 counterexample: every item non-biased (auto-approved at
creation), session still `"pending_review"`. -/
def neutralOnlyStore : SessionStore :=
  mkStore [mkItem "n1" false "approved" none none] "pending_review"

end Setu

namespace Setu

/-! ### Store lemmas -/

theorem updateFirst_append {α : Type} (p : α → Bool) (f : α → α) :
    ∀ (pre : List α) (it : α) (post : List α), (∀ x ∈ pre, p x = false) → p it = true →
      updateFirst p f (pre ++ it :: post) = some (pre ++ f it :: post) := by
  intro pre
  induction pre with
  | nil =>
    intro it post _ hit
    simp [updateFirst, hit]
  | cons x rest ih =>
    intro it post hpre hit
    have hx : p x = false := hpre x (by simp)
    have ihr := ih it post (fun y hy => hpre y (by simp [hy])) hit
    simp [updateFirst, hx, ihr]

theorem lookup_cons (k : String) (v : BiasReviewSession) (rest : SessionStore)
    (sid : String) :
    lookupStore ((k, v) :: rest) sid = if k == sid then some v else lookupStore rest sid := by
  by_cases hk : (k == sid) = true
  · simp [lookupStore, List.find?_cons_of_pos, hk]
  · have hk' : (k == sid) = false := by simpa using hk
    simp [lookupStore, List.find?_cons_of_neg, hk, hk']

theorem lookup_setStore (store : SessionStore) (sid : String) (x : BiasReviewSession)
    (h : (lookupStore store sid).isSome) :
    lookupStore (setStore store sid x) sid = some x := by
  induction store with
  | nil => simp [lookupStore] at h
  | cons kv rest ih =>
    obtain ⟨k, v⟩ := kv
    by_cases hk : k = sid
    · subst hk
      have hset : setStore ((k, v) :: rest) k x = (k, x) :: setStore rest k x := by
        simp [setStore]
      rw [hset, lookup_cons]
      simp
    · have hk' : (k == sid) = false := by simpa using hk
      have hset : setStore ((k, v) :: rest) sid x = (k, v) :: setStore rest sid x := by
        simp [setStore, hk]
      rw [lookup_cons] at h
      simp only [hk', Bool.false_eq_true, if_false] at h
      rw [hset, lookup_cons]
      simp only [hk', Bool.false_eq_true, if_false]
      exact ih h

theorem update_sentence_status_found (store : SessionStore) (sid iid st : String)
    (v : Option String) (session : BiasReviewSession)
    (pre post : List BiasReviewItem) (it : BiasReviewItem)
    (hs : get_session store sid = some session)
    (hsp : session.sentences = pre ++ it :: post)
    (hpre : ∀ x ∈ pre, (x.sentence_id == iid) = false)
    (hit : (it.sentence_id == iid) = true) :
    update_sentence_status store sid iid st v =
      (true, setStore store sid
        { session with
          sentences := pre ++
            { it with
              status := st
              approved_suggestion :=
                if truthyStr v then v else it.approved_suggestion } :: post
          status := if session.status == "pending_review" then "in_progress"
                    else session.status }) := by
  have hupd := updateFirst_append (fun s => s.sentence_id == iid)
    (fun s =>
      { s with
        status := st
        approved_suggestion :=
          if truthyStr v then v else s.approved_suggestion }) pre it post hpre hit
  unfold update_sentence_status
  rw [hs]
  dsimp only
  rw [hsp, hupd]

theorem update_sentence_suggestion_found (store : SessionStore) (sid iid new : String)
    (session : BiasReviewSession) (pre post : List BiasReviewItem) (it : BiasReviewItem)
    (hs : get_session store sid = some session)
    (hsp : session.sentences = pre ++ it :: post)
    (hpre : ∀ x ∈ pre, (x.sentence_id == iid) = false)
    (hit : (it.sentence_id == iid) = true) :
    update_sentence_suggestion store sid iid new =
      (true, setStore store sid
        { session with
          sentences := pre ++
            { it with suggestion := some new, status := "pending" } :: post }) := by
  have hupd := updateFirst_append (fun s => s.sentence_id == iid)
    (fun s => { s with suggestion := some new, status := "pending" }) pre it post hpre hit
  unfold update_sentence_suggestion
  rw [hs]
  dsimp only
  rw [hsp, hupd]

/-- Per-item readiness test of `is_session_ready_for_pdf`, spelled as an
implication. -/
theorem ready_item_iff (x : BiasReviewItem) :
    ((!(x.is_biased && !(x.status == "approved"))) = true) ↔
      (x.is_biased = true → x.status = "approved") := by
  cases hb : x.is_biased <;> simp [hb]

/-- `is_session_ready_for_pdf` on a present session is the `all` of the
per-item test. -/
theorem ready_eq_all (store : SessionStore) (sid : String) (s : BiasReviewSession)
    (hs : get_session store sid = some s) :
    is_session_ready_for_pdf store sid =
      s.sentences.all (fun x => !(x.is_biased && !(x.status == "approved"))) := by
  unfold is_session_ready_for_pdf
  rw [hs]

/-- `all`-level congruence for the readiness test: sessions agreeing on
`is_biased` flags and on biased items' statuses test equal. -/
theorem ready_all_congr :
    ∀ (l l' : List BiasReviewItem),
      List.Forall₂ (fun a b => a.is_biased = b.is_biased ∧
        (a.is_biased = true → a.status = b.status)) l l' →
      l.all (fun x => !(x.is_biased && !(x.status == "approved"))) =
        l'.all (fun x => !(x.is_biased && !(x.status == "approved"))) := by
  intro l l' hf
  induction hf with
  | nil => rfl
  | @cons x y xs ys hxy _ ih =>
    obtain ⟨hb, hst⟩ := hxy
    have hpq : (!(x.is_biased && !(x.status == "approved"))) =
        (!(y.is_biased && !(y.status == "approved"))) := by
      cases hxb : x.is_biased with
      | false =>
        have hyb : y.is_biased = false := by rw [← hb, hxb]
        simp [hxb, hyb]
      | true =>
        have hyb : y.is_biased = true := by rw [← hb, hxb]
        simp [hxb, hyb, hst hxb]
    simp only [List.all_cons, ih, hpq]

/-! ### Claim theorems -/

/-- C1: for every session present in the store, `isReadyForFinalization`
(source: `is_session_ready_for_pdf`) is true iff every item with
`isBiased = true` has status `"approved"`; it is false whenever some biased
item is `"pending"` or `"needs_regeneration"`; and the statuses of
non-biased items never affect the result (two sessions whose item lists
agree on `is_biased` flags and on the statuses of biased items get the same
answer). -/
theorem isReady_iff_biased_approved (store : SessionStore) (sid : String)
    (s : BiasReviewSession) (hs : get_session store sid = some s) :
    (is_session_ready_for_pdf store sid = true ↔
       ∀ it ∈ s.sentences, it.is_biased = true → it.status = "approved")
    ∧ (∀ it ∈ s.sentences, it.is_biased = true →
         (it.status = "pending" ∨ it.status = "needs_regeneration") →
         is_session_ready_for_pdf store sid = false)
    ∧ (∀ (store' : SessionStore) (s' : BiasReviewSession),
         get_session store' sid = some s' →
         List.Forall₂ (fun a b => a.is_biased = b.is_biased ∧
           (a.is_biased = true → a.status = b.status)) s.sentences s'.sentences →
         is_session_ready_for_pdf store sid = is_session_ready_for_pdf store' sid) := by
  have hiff : is_session_ready_for_pdf store sid = true ↔
      ∀ it ∈ s.sentences, it.is_biased = true → it.status = "approved" := by
    rw [ready_eq_all store sid s hs, List.all_eq_true]
    constructor
    · intro h it hit hb
      exact (ready_item_iff it).1 (h it hit) hb
    · intro h it hit
      exact (ready_item_iff it).2 (h it hit)
  refine ⟨hiff, ?_, ?_⟩
  · intro it hit hb hpn
    cases hr : is_session_ready_for_pdf store sid with
    | false => rfl
    | true =>
      have happ := hiff.1 hr it hit hb
      rcases hpn with h | h <;> rw [happ] at h <;> exact absurd h (by decide)
  · intro store' s' hs' hf
    rw [ready_eq_all store sid s hs, ready_eq_all store' sid s' hs']
    exact ready_all_congr s.sentences s'.sentences hf

/-- C1 witness: a session with one biased approved item and one non-biased
item still `"pending"` is ready — the non-biased item does not count. -/
theorem isReady_iff_biased_approved_witness :
    is_session_ready_for_pdf readyStore "s1" = true :=
  (isReady_iff_biased_approved readyStore "s1" (mkSession readyItems "in_progress")
      (by decide)).1.2 (by decide)

/-- C2 counterexample: approving item `"i1"` of `approveNoTextStore` with no
explicit approved text succeeds and sets the status to `"approved"`, but the
resulting `approved_suggestion` is not the item's current `suggestion`
(which is untouched by the approve): the claimed defaulting does not
happen. -/
theorem approve_default_counterexample :
    (itemAfter (approve_suggestion approveNoTextStore "s1" "i1" "approve" none).2
        "s1" "i1").map (fun it => it.status) = some "approved"
    ∧ (itemAfter (approve_suggestion approveNoTextStore "s1" "i1" "approve" none).2
        "s1" "i1").map (fun it => it.approved_suggestion) ≠
      (itemAfter (approve_suggestion approveNoTextStore "s1" "i1" "approve" none).2
        "s1" "i1").map (fun it => it.suggestion) := by
  decide

/-- C2 (amended): an approve action carrying no truthy approved text sets
the item's status to `"approved"` and leaves `approved_suggestion` exactly
as it was (it is not defaulted to the current `suggestion`); all other item
fields and all other items are untouched, and the session is promoted
`pending_review → in_progress`. -/
theorem approve_without_text_keeps_approved_suggestion (store : SessionStore)
    (sid iid : String) (v : Option String) (session : BiasReviewSession)
    (pre post : List BiasReviewItem) (it : BiasReviewItem)
    (hs : get_session store sid = some session)
    (hsp : session.sentences = pre ++ it :: post)
    (hpre : ∀ x ∈ pre, (x.sentence_id == iid) = false)
    (hit : (it.sentence_id == iid) = true)
    (hv : truthyStr v = false) :
    approve_suggestion store sid iid "approve" v =
      (.approvedOk, setStore store sid
        { session with
          sentences := pre ++ { it with status := "approved" } :: post
          status := if session.status == "pending_review" then "in_progress"
                    else session.status }) := by
  have hupd := update_sentence_status_found store sid iid "approved" v session
    pre post it hs hsp hpre hit
  rw [hv] at hupd
  simp only [Bool.false_eq_true, if_false] at hupd
  unfold approve_suggestion
  rw [hs]
  dsimp only
  rw [hupd]
  rfl

/-- C2 witness: applying the amended statement to `approveNoTextStore`. -/
theorem approve_without_text_witness :
    approve_suggestion approveNoTextStore "s1" "i1" "approve" none =
      (.approvedOk,
        mkStore [mkItem "i1" true "approved" (some "सुझाव वाक्य।") none] "in_progress") := by
  have h := approve_without_text_keeps_approved_suggestion approveNoTextStore "s1" "i1"
    none (mkSession approveNoTextItems "pending_review") [] []
    (mkItem "i1" true "pending" (some "सुझाव वाक्य।") none)
    (by decide) (by decide) (by simp) (by decide) (by decide)
  rw [h]
  decide

/-- C3: for a session present in the store and the (first) item carrying the
requested id, `updateItemSuggestion` (source: `update_sentence_suggestion`)
succeeds, overwrites `suggestion` with the new text and resets the status to
`"pending"`, with no hypothesis on — hence regardless of — the item's
previous status; every other field, item and the session status are
untouched. -/
theorem updateItemSuggestion_resets_pending (store : SessionStore)
    (sid iid new : String) (session : BiasReviewSession)
    (pre post : List BiasReviewItem) (it : BiasReviewItem)
    (hs : get_session store sid = some session)
    (hsp : session.sentences = pre ++ it :: post)
    (hpre : ∀ x ∈ pre, (x.sentence_id == iid) = false)
    (hit : (it.sentence_id == iid) = true) :
    update_sentence_suggestion store sid iid new =
      (true, setStore store sid
        { session with
          sentences := pre ++
            { it with suggestion := some new, status := "pending" } :: post }) :=
  update_sentence_suggestion_found store sid iid new session pre post it hs hsp hpre hit

/-- C3 witness: regenerating over a `"needs_regeneration"` item resets it to
`"pending"` with the new suggestion stored. -/
theorem updateItemSuggestion_resets_pending_witness :
    update_sentence_suggestion regenStore "s1" "b1" "ताजा सुझाव हो।" =
      (true, mkStore [mkItem "b1" true "pending" (some "ताजा सुझाव हो।") none]
        "in_progress") := by
  have h := updateItemSuggestion_resets_pending regenStore "s1" "b1" "ताजा सुझाव हो।"
    (mkSession regenItems "in_progress") [] []
    (mkItem "b1" true "needs_regeneration" (some "पुरानो सुझाव हो।") none)
    (by decide) (by decide) (by simp) (by decide)
  rw [h]
  decide

/-- C5: when the target session and sentence exist and the Suggestion
Gateway call fails with message `e`, `regenerate` returns the upstream
failure with `e` interpolated into the detail and returns the store exactly
as it was: no item or session field is mutated on this path. -/
theorem regenerate_gateway_failure_no_mutation (store : SessionStore)
    (sid iid : String) (gw : String → String → Except String String) (e : String)
    (session : BiasReviewSession) (it : BiasReviewItem)
    (hs : get_session store sid = some session)
    (hfind : session.sentences.find? (fun s => s.sentence_id == iid) = some it)
    (hgw : gw it.original_sentence it.category = .error e) :
    regenerate_suggestion store sid iid gw =
      (.upstreamFailure ("Failed to generate new suggestion: " ++ e), store) := by
  unfold regenerate_suggestion
  rw [hs]
  dsimp only
  rw [hfind]
  dsimp only
  rw [hgw]

/-- C5 witness: a failing gateway on `regenStore` leaves the store intact
and reports the gateway's message. -/
theorem regenerate_gateway_failure_witness :
    regenerate_suggestion regenStore "s1" "b1" errGateway =
      (.upstreamFailure "Failed to generate new suggestion: LLM unavailable",
        regenStore) := by
  have h := regenerate_gateway_failure_no_mutation regenStore "s1" "b1" errGateway
    "LLM unavailable" (mkSession regenItems "in_progress")
    (mkItem "b1" true "needs_regeneration" (some "पुरानो सुझाव हो।") none)
    (by decide) (by decide) rfl
  rw [h]
  rfl

/-- C6: on a present session that is not ready for finalization, the
`/generate-pdf` route fails with `IncompleteReview` carrying the session's
current pending and needs-regeneration counts, and the store — in
particular the session status — is left unchanged (the session is not
marked completed). -/
theorem finalize_incomplete_reports_counts (store : SessionStore) (sid : String)
    (renderer : List Nat → List BiasReviewItem → String →
      Except String (List Nat × List Bool))
    (session : BiasReviewSession)
    (hs : get_session store sid = some session)
    (hnr : is_session_ready_for_pdf store sid = false) :
    generate_debiased_pdf store sid renderer =
      (.incompleteReview (session.sentences.countP (fun x => x.status == "pending"))
        (session.sentences.countP (fun x => x.status == "needs_regeneration")),
       store) := by
  unfold generate_debiased_pdf
  rw [hs]
  dsimp only
  rw [hnr]
  simp only [Bool.false_eq_true, if_false]
  unfold get_session_stats
  rw [hs]
  rfl

/-- C6 witness: spec scenario B — three biased items, two approved and one
`"needs_regeneration"` — fails with counts (0, 1): exactly one outstanding
item, and the store is unchanged. -/
theorem finalize_incomplete_witness :
    generate_debiased_pdf scenarioBStore "s1" errRenderer =
      (.incompleteReview 0 1, scenarioBStore) := by
  have h := finalize_incomplete_reports_counts scenarioBStore "s1" errRenderer
    (mkSession scenarioBItems "in_progress") (by decide) (by decide)
  rw [h]
  decide

/-- C10: `updateItemStatus` (source: `update_sentence_status`) called with a
non-truthy `approved_suggestion` (`None` or `""`) changes only the matched
item's `status` — its previously stored `approved_suggestion` and every
other field survive — plus the session-status promotion on first mutation;
in particular a reject (`"needs_regeneration"`, `None`) leaves a previously
frozen approved suggestion in place. -/
theorem updateItemStatus_frame (store : SessionStore) (sid iid st : String)
    (v : Option String) (session : BiasReviewSession)
    (pre post : List BiasReviewItem) (it : BiasReviewItem)
    (hs : get_session store sid = some session)
    (hsp : session.sentences = pre ++ it :: post)
    (hpre : ∀ x ∈ pre, (x.sentence_id == iid) = false)
    (hit : (it.sentence_id == iid) = true)
    (hv : truthyStr v = false) :
    update_sentence_status store sid iid st v =
      (true, setStore store sid
        { session with
          sentences := pre ++ { it with status := st } :: post
          status := if session.status == "pending_review" then "in_progress"
                    else session.status }) := by
  have hupd := update_sentence_status_found store sid iid st v session
    pre post it hs hsp hpre hit
  rw [hv] at hupd
  simp only [Bool.false_eq_true, if_false] at hupd
  exact hupd

/-- Case split for `update_sentence_status`: it either fails leaving the
store untouched, or succeeds replacing the located session with the promoted
one. -/
theorem update_status_cases (store : SessionStore) (sid iid st : String)
    (v : Option String) :
    update_sentence_status store sid iid st v = (false, store)
    ∨ (∃ session ns, get_session store sid = some session ∧
        update_sentence_status store sid iid st v =
          (true, setStore store sid
            { session with
              sentences := ns
              status := if session.status == "pending_review" then "in_progress"
                        else session.status })) := by
  unfold update_sentence_status
  cases hses : get_session store sid with
  | none => exact Or.inl rfl
  | some session =>
    cases hu : updateFirst (fun s => s.sentence_id == iid)
        (fun s =>
          { s with
            status := st
            approved_suggestion :=
              if truthyStr v then v else s.approved_suggestion }) session.sentences with
    | none => exact Or.inl (by dsimp only; rw [hu])
    | some ns => exact Or.inr ⟨session, ns, rfl, by dsimp only; rw [hu]⟩

/-- Case split for `update_sentence_suggestion`: it either fails leaving the
store untouched, or succeeds replacing only the sentence list (never the
session status). -/
theorem update_suggestion_cases (store : SessionStore) (sid iid new : String) :
    update_sentence_suggestion store sid iid new = (false, store)
    ∨ (∃ session ns, get_session store sid = some session ∧
        update_sentence_suggestion store sid iid new =
          (true, setStore store sid { session with sentences := ns })) := by
  unfold update_sentence_suggestion
  cases hses : get_session store sid with
  | none => exact Or.inl rfl
  | some session =>
    cases hu : updateFirst (fun s => s.sentence_id == iid)
        (fun s => { s with suggestion := some new, status := "pending" })
        session.sentences with
    | none => exact Or.inl (by dsimp only; rw [hu])
    | some ns => exact Or.inr ⟨session, ns, rfl, by dsimp only; rw [hu]⟩

/-- Case split for `generate_debiased_pdf`: every non-render outcome leaves
the store untouched; a successful render marks the located session
completed. -/
theorem generate_pdf_cases (store : SessionStore) (sid : String)
    (renderer : List Nat → List BiasReviewItem → String →
      Except String (List Nat × List Bool)) :
    (∃ out, generate_debiased_pdf store sid renderer = (out, store)
       ∧ ∀ bytes n, out ≠ .rendered bytes n)
    ∨ (∃ session bytes n, get_session store sid = some session ∧
        generate_debiased_pdf store sid renderer =
          (.rendered bytes n, setStore store sid { session with status := "completed" })) := by
  unfold generate_debiased_pdf
  cases hses : get_session store sid with
  | none =>
    exact Or.inl ⟨.sessionNotFound, rfl, fun bytes n h => by cases h⟩
  | some session =>
    dsimp only
    cases hready : is_session_ready_for_pdf store sid with
    | false =>
      simp only [Bool.false_eq_true, if_false]
      cases hstats : get_session_stats store sid with
      | none => exact Or.inl ⟨.sessionNotFound, rfl, fun bytes n h => by cases h⟩
      | some stats =>
        exact Or.inl ⟨.incompleteReview stats.pending_count stats.needs_regeneration_count,
          rfl, fun bytes n h => by cases h⟩
    | true =>
      simp only [if_true]
      cases hempty : (session.original_pdf_bytes.getD []).isEmpty with
      | true =>
        simp only [if_true]
        exact Or.inl ⟨.missingOriginalPdf, rfl, fun bytes n h => by cases h⟩
      | false =>
        simp only [Bool.false_eq_true, if_false]
        cases hrend : renderer (session.original_pdf_bytes.getD []) session.sentences
            session.original_filename with
        | error msg =>
          exact Or.inl ⟨.renderFailure msg, rfl, fun bytes n h => by cases h⟩
        | ok res =>
          obtain ⟨pdf_bytes, details⟩ := res
          refine Or.inr ⟨session, pdf_bytes, details.count true, rfl, ?_⟩
          dsimp only
          unfold mark_session_completed
          rw [hses]

/-- C4 counterexample: `neutralOnlyStore` holds a ready session (all items
non-biased, auto-approved at creation) still in `"pending_review"`; a
successful finalize renders and moves it directly to `"completed"` with no
intervening `"in_progress"` step, refuting "no session ever goes from
pending_review directly to completed". -/
theorem lifecycle_direct_completion_counterexample :
    (get_session neutralOnlyStore "s1").map (fun s => s.status) = some "pending_review"
    ∧ (generate_debiased_pdf neutralOnlyStore "s1" okRenderer).1 = .rendered [1, 2] 0
    ∧ (get_session (generate_debiased_pdf neutralOnlyStore "s1" okRenderer).2 "s1").map
        (fun s => s.status) = some "completed" := by
  decide

/-- C4 (amended): the session lifecycle over the embedded operations —
a session is `"pending_review"` at creation; a successful item-status
mutation promotes `pending_review → in_progress` and otherwise leaves the
status where it was, while a failed one changes nothing; a suggestion
update never changes the session status; every finalize outcome other than
a successful render — a failed render, an incomplete review, missing
original bytes, an unknown session, any of them — leaves the store
unchanged, so a session is marked `"completed"` only by a successful
render; and that can happen directly from `"pending_review"` when no
item-status mutation ever occurred. -/
theorem session_lifecycle (store : SessionStore) (sid filename raw ca iid st new : String)
    (items : List BiasReviewItem) (pb : Option (List Nat)) (v : Option String)
    (renderer : List Nat → List BiasReviewItem → String →
      Except String (List Nat × List Bool)) :
    ((create_session store sid filename items raw pb ca).1.status = "pending_review")
    ∧ (∀ session, get_session store sid = some session →
        (((update_sentence_status store sid iid st v).1 = true →
           (get_session (update_sentence_status store sid iid st v).2 sid).map
               (fun s => s.status) =
             some (if session.status == "pending_review" then "in_progress"
                   else session.status))
         ∧ ((update_sentence_status store sid iid st v).1 = false →
             (update_sentence_status store sid iid st v).2 = store)
         ∧ ((get_session (update_sentence_suggestion store sid iid new).2 sid).map
               (fun s => s.status) = some session.status)))
    ∧ (∀ msg, (generate_debiased_pdf store sid renderer).1 = .renderFailure msg →
        (generate_debiased_pdf store sid renderer).2 = store)
    ∧ (∀ p q, (generate_debiased_pdf store sid renderer).1 = .incompleteReview p q →
        (generate_debiased_pdf store sid renderer).2 = store)
    ∧ (∀ bytes n, (generate_debiased_pdf store sid renderer).1 = .rendered bytes n →
        (get_session (generate_debiased_pdf store sid renderer).2 sid).map
            (fun s => s.status) = some "completed")
    ∧ ((generate_debiased_pdf store sid renderer).1 = .missingOriginalPdf →
        (generate_debiased_pdf store sid renderer).2 = store)
    ∧ ((generate_debiased_pdf store sid renderer).1 = .sessionNotFound →
        (generate_debiased_pdf store sid renderer).2 = store)
    ∧ (∀ out store₂, generate_debiased_pdf store sid renderer = (out, store₂) →
        (∀ bytes n, out ≠ GeneratePDFOutcome.rendered bytes n) → store₂ = store) := by
  refine ⟨rfl, ?_, ?_, ?_, ?_, ?_, ?_, ?_⟩
  · intro session hs
    have hsome : (lookupStore store sid).isSome := by
      unfold get_session at hs
      rw [hs]
      rfl
    refine ⟨?_, ?_, ?_⟩
    · intro hsucc
      rcases update_status_cases store sid iid st v with heq | ⟨session', ns, hs', heq⟩
      · rw [heq] at hsucc
        simp at hsucc
      · have hsession : session' = session := (Option.some.inj (hs.symm.trans hs')).symm
        subst hsession
        rw [heq]
        dsimp only
        unfold get_session
        rw [lookup_setStore store sid _ hsome]
        rfl
    · intro hfail
      rcases update_status_cases store sid iid st v with heq | ⟨session', ns, hs', heq⟩
      · rw [heq]
      · rw [heq] at hfail
        simp at hfail
    · rcases update_suggestion_cases store sid iid new with heq | ⟨session', ns, hs', heq⟩
      · rw [heq]
        dsimp only
        rw [hs]
        rfl
      · have hsession : session' = session := (Option.some.inj (hs.symm.trans hs')).symm
        subst hsession
        rw [heq]
        dsimp only
        unfold get_session
        rw [lookup_setStore store sid _ hsome]
        rfl
  · intro msg hout
    rcases generate_pdf_cases store sid renderer with ⟨out, heq, _⟩ | ⟨session, bytes, n, hs', heq⟩
    · rw [heq]
    · rw [heq] at hout
      exact absurd hout (by simp)
  · intro p q hout
    rcases generate_pdf_cases store sid renderer with ⟨out, heq, _⟩ | ⟨session, bytes, n, hs', heq⟩
    · rw [heq]
    · rw [heq] at hout
      exact absurd hout (by simp)
  · intro bytes n hout
    rcases generate_pdf_cases store sid renderer with ⟨out, heq, hnr⟩ | ⟨session, b', n', hs', heq⟩
    · rw [heq] at hout
      exact absurd hout (hnr bytes n)
    · have hsome : (lookupStore store sid).isSome := by
        unfold get_session at hs'
        rw [hs']
        rfl
      rw [heq]
      dsimp only
      unfold get_session
      rw [lookup_setStore store sid _ hsome]
      rfl
  · intro hout
    rcases generate_pdf_cases store sid renderer with ⟨out, heq, _⟩ | ⟨session, b', n', hs', heq⟩
    · rw [heq]
    · rw [heq] at hout
      exact absurd hout (by simp)
  · intro hout
    rcases generate_pdf_cases store sid renderer with ⟨out, heq, _⟩ | ⟨session, b', n', hs', heq⟩
    · rw [heq]
    · rw [heq] at hout
      exact absurd hout (by simp)
  · intro out store₂ heq2 hnr2
    rcases generate_pdf_cases store sid renderer with ⟨out', heq, _⟩ | ⟨session, b', n', hs', heq⟩
    · have hp := heq.symm.trans heq2
      injection hp with _ h2
      exact h2.symm
    · have hp := heq.symm.trans heq2
      injection hp with h1 _
      exact absurd h1.symm (hnr2 b' n')

/-- C4 witness: applying the amended lifecycle at a concrete store — a
successful approve on a `"pending_review"` session promotes it to
`"in_progress"`. -/
theorem session_lifecycle_witness :
    (get_session (update_sentence_status approveNoTextStore "s1" "i1" "approved" none).2
        "s1").map (fun s => s.status) = some "in_progress" := by
  have h := ((session_lifecycle approveNoTextStore "s1" "doc.pdf" "x" "x" "i1" "approved"
      "x" [] none none okRenderer).2.1 (mkSession approveNoTextItems "pending_review")
      (by decide)).1 (by decide)
  simpa using h

/-- C10 witness: rejecting an approved item (status `"needs_regeneration"`,
no approved text) keeps the frozen approved suggestion. -/
theorem updateItemStatus_frame_witness :
    update_sentence_status frozenStore "s1" "b1" "needs_regeneration" none =
      (true, mkStore
        [mkItem "b1" true "needs_regeneration" (some "नयाँ सुझाव हो।")
          (some "जमेको सुझाव हो।")] "in_progress") := by
  have h := updateItemStatus_frame frozenStore "s1" "b1" "needs_regeneration" none
    (mkSession frozenItems "in_progress") [] []
    (mkItem "b1" true "approved" (some "नयाँ सुझाव हो।") (some "जमेको सुझाव हो।"))
    (by decide) (by decide) (by simp) (by decide) (by decide)
  rw [h]
  decide

/-! ### Segmenter lemmas -/

/-- `collapseWs` distributes over append, threading the whitespace state. -/
theorem collapseWs_append (B : List Char) :
    ∀ (A : List Char) (b : Bool),
      collapseWs b (A ++ B) = collapseWs b A ++ collapseWs (endWs b A) B := by
  intro A
  induction A with
  | nil => intro b; rfl
  | cons c A' ih =>
    intro b
    cases hw : isPySpace c with
    | true =>
      cases b with
      | true => simp [collapseWs, hw, endWs, ih]
      | false => simp [collapseWs, hw, endWs, ih]
    | false => simp [collapseWs, hw, endWs, ih]

/-- Skipping-state `collapseWs` ignores a leading space run. -/
theorem collapseWs_true_replicate (B : List Char) :
    ∀ n, collapseWs true (List.replicate n ' ' ++ B) = collapseWs true B := by
  intro n
  induction n with
  | zero => rfl
  | succ m ih =>
    rw [List.replicate_succ, List.cons_append]
    exact ih

/-- `split_into_sentences` depends on its input only through `clean_text`. -/
theorem split_into_sentences_congr (t u : List Char)
    (h : clean_text t = clean_text u) :
    split_into_sentences t = split_into_sentences u := by
  unfold split_into_sentences
  rw [h]

/-- C8: the spec's scenario A input — two sentences with no space after the
first terminator — segments into exactly the two claimed sentences, each
ending in the danda; and more generally the same segmentation results with
any number `n` of spaces after the first terminator, the primary split
firing because the following character is a Devanagari letter. -/
theorem primary_split_scenario (n : Nat) :
    split_into_sentences "यो पहिलो वाक्य छ।दोस्रो वाक्य छ।".data =
      ["यो पहिलो वाक्य छ।".data, "दोस्रो वाक्य छ।".data]
    ∧ split_into_sentences
        ("यो पहिलो वाक्य छ।".data ++ List.replicate n ' ' ++ "दोस्रो वाक्य छ।".data) =
      ["यो पहिलो वाक्य छ।".data, "दोस्रो वाक्य छ।".data] := by
  refine ⟨by decide, ?_⟩
  cases n with
  | zero => decide
  | succ m =>
    have hclean :
        clean_text ("यो पहिलो वाक्य छ।".data ++ List.replicate (m + 1) ' '
            ++ "दोस्रो वाक्य छ।".data) =
          clean_text "यो पहिलो वाक्य छ। दोस्रो वाक्य छ।".data := by
      unfold clean_text
      rw [List.map_append, List.map_append, List.map_replicate]
      rw [show "यो पहिलो वाक्य छ।".data.map (fun c => if c == '\n' then ' ' else c) =
        "यो पहिलो वाक्य छ।".data from by decide]
      rw [show "दोस्रो वाक्य छ।".data.map (fun c => if c == '\n' then ' ' else c) =
        "दोस्रो वाक्य छ।".data from by decide]
      rw [ite_self]
      rw [List.append_assoc, collapseWs_append]
      rw [show collapseWs false "यो पहिलो वाक्य छ।".data = "यो पहिलो वाक्य छ।".data from
        by decide]
      rw [show endWs false "यो पहिलो वाक्य छ।".data = false from by decide]
      have h3 : collapseWs false (List.replicate (m + 1) ' ' ++ "दोस्रो वाक्य छ।".data) =
          ' ' :: "दोस्रो वाक्य छ।".data := by
        rw [List.replicate_succ, List.cons_append]
        rw [show ∀ X, collapseWs false (' ' :: X) = ' ' :: collapseWs true X from
          fun X => rfl]
        rw [collapseWs_true_replicate]
        rw [show collapseWs true "दोस्रो वाक्य छ।".data = "दोस्रो वाक्य छ।".data from
          by decide]
      rw [h3]
      decide
    rw [split_into_sentences_congr _ _ hclean]
    decide

/-- Both strips of `pyStrip` only drop characters: the result is a sublist. -/
theorem pyStrip_sublist (p : Char → Bool) (l : List Char) :
    List.Sublist (pyStrip p l) l := by
  unfold pyStrip dropEndWhile
  have h1 : List.Sublist (l.dropWhile p) l := List.dropWhile_sublist p
  have h2 := (List.dropWhile_sublist p (l := (l.dropWhile p).reverse)).reverse
  rw [List.reverse_reverse] at h2
  exact h2.trans h1

/-- Shape of a kept candidate: the body before the re-appended danda is a
sublist of the raw candidate and exceeds the length threshold. -/
theorem postCandidate_shape (s out : List Char) (h : postCandidate s = some out) :
    ∃ c, out = c ++ ['।'] ∧ 3 < c.length ∧ List.Sublist c s := by
  unfold postCandidate at h
  dsimp only at h
  by_cases hc : (!(pyStrip isPySpace (pyStrip stripSetChar s)).isEmpty
      && decide (3 < (pyStrip isPySpace (pyStrip stripSetChar s)).length)) = true
  · rw [if_pos hc] at h
    rw [Bool.and_eq_true] at hc
    refine ⟨pyStrip isPySpace (pyStrip stripSetChar s), (Option.some.inj h).symm,
      of_decide_eq_true hc.2, ?_⟩
    exact (pyStrip_sublist _ _).trans (pyStrip_sublist _ _)
  · rw [if_neg hc] at h
    cases h

/-- Joining the post-processed candidates, with the appended dandas removed,
is a sublist of joining the raw candidates. -/
theorem postJoin_sublist :
    ∀ L : List (List Char),
      List.Sublist (((L.filterMap postCandidate).map List.dropLast).join) L.join := by
  intro L
  induction L with
  | nil => exact List.Sublist.refl _
  | cons s L' ih =>
    cases hp : postCandidate s with
    | none =>
      simp only [List.filterMap_cons, hp, List.join_cons]
      exact ih.trans (List.sublist_append_right s L'.join)
    | some out =>
      obtain ⟨c, hc, _, hsub⟩ := postCandidate_shape s out hp
      simp only [List.filterMap_cons, hp, List.map_cons, List.join_cons]
      have hdl : out.dropLast = c := by rw [hc]; exact List.dropLast_concat
      rw [hdl]
      exact hsub.append ih

/-- The split only ever drops whitespace between segments: the joined
segments are a sublist of the input. -/
theorem reSplit_join_sublist (term : Char → Bool) (la reqSp : Bool) :
    ∀ (l : List Char) (skip : Bool),
      List.Sublist (reSplit term la reqSp skip l).join l := by
  intro l
  induction l with
  | nil => intro skip; simp [reSplit]
  | cons c cs ih =>
    intro skip
    unfold reSplit
    by_cases h1 : (skip && isPySpace c) = true
    · rw [if_pos h1]
      exact (ih true).trans (List.sublist_cons_self c cs)
    · rw [if_neg h1]
      by_cases h2 : (term c && splitBoundary la reqSp cs) = true
      · rw [if_pos h2]
        simp only [List.join_cons, List.singleton_append]
        exact (ih true).cons₂ c
      · rw [if_neg h2]
        cases hsp : reSplit term la reqSp false cs with
        | nil => simpa using (List.nil_sublist cs).cons₂ c
        | cons s ss =>
          have htl := ih false
          rw [hsp] at htl
          simp only [List.join_cons] at htl ⊢
          exact (List.Sublist.cons₂ c htl)

/-- Whitespace-insensitive content is preserved by the newline
replacement. -/
theorem filter_nonws_map (l : List Char) :
    (l.map (fun c => if c == '\n' then ' ' else c)).filter (fun c => !isPySpace c) =
      l.filter (fun c => !isPySpace c) := by
  induction l with
  | nil => rfl
  | cons c l ih =>
    simp only [List.map_cons, List.filter_cons]
    by_cases hc : c = '\n'
    · subst hc
      rw [if_neg (by decide), if_neg (by decide)]
      exact ih
    · have hceq : (if (c == '\n') = true then ' ' else c) = c := by
        rw [if_neg]
        simp [hc]
      rw [hceq]
      cases hw : isPySpace c with
      | true =>
        rw [if_neg (by simp [hw]), if_neg (by simp [hw])]
        exact ih
      | false =>
        rw [if_pos (by simp [hw]), if_pos (by simp [hw]), ih]

/-- Whitespace-insensitive content is preserved by whitespace collapsing. -/
theorem filter_nonws_collapse :
    ∀ (l : List Char) (b : Bool),
      (collapseWs b l).filter (fun c => !isPySpace c) = l.filter (fun c => !isPySpace c) := by
  intro l
  induction l with
  | nil => intro b; rfl
  | cons c cs ih =>
    intro b
    cases hw : isPySpace c with
    | true =>
      cases b with
      | true => simpa [collapseWs, hw, List.filter_cons] using ih true
      | false => simpa [collapseWs, hw, List.filter_cons] using ih true
    | false => simpa [collapseWs, hw, List.filter_cons] using ih false

/-- Whitespace-insensitive content is preserved by a left whitespace
strip. -/
theorem filter_nonws_dropWhile (l : List Char) :
    (l.dropWhile isPySpace).filter (fun c => !isPySpace c) =
      l.filter (fun c => !isPySpace c) := by
  induction l with
  | nil => rfl
  | cons c cs ih =>
    cases hw : isPySpace c with
    | true => simpa [List.dropWhile, hw, List.filter_cons] using ih
    | false => simp [List.dropWhile, hw]

/-- Whitespace-insensitive content is preserved by a right whitespace
strip. -/
theorem filter_nonws_dropEnd (l : List Char) :
    (dropEndWhile isPySpace l).filter (fun c => !isPySpace c) =
      l.filter (fun c => !isPySpace c) := by
  unfold dropEndWhile
  rw [List.filter_reverse, filter_nonws_dropWhile, List.filter_reverse,
    List.reverse_reverse]

/-- Whitespace-insensitive content is preserved by `clean_text`. -/
theorem filter_nonws_clean (t : List Char) :
    (clean_text t).filter (fun c => !isPySpace c) = t.filter (fun c => !isPySpace c) := by
  unfold clean_text pyStrip
  rw [filter_nonws_dropEnd, filter_nonws_dropWhile, filter_nonws_collapse,
    filter_nonws_map]

/-- C7: for every input, the concatenation of the segmenter's sentences,
with the re-appended terminators removed and ignoring whitespace, is a
sublist (subsequence) of the input's non-whitespace characters; and every
returned sentence is a body of more than 3 characters followed by the
terminator. -/
theorem segment_subsequence_and_length (t : List Char) :
    List.Sublist
      ((((split_into_sentences t).map List.dropLast).join).filter (fun c => !isPySpace c))
      (t.filter (fun c => !isPySpace c))
    ∧ ∀ s ∈ split_into_sentences t, ∃ c, s = c ++ ['।'] ∧ 3 < c.length := by
  have key : ∀ L : List (List Char),
      List.Sublist L.join (clean_text t) →
      List.Sublist
        ((((L.filterMap postCandidate).map List.dropLast).join).filter
          (fun c => !isPySpace c))
        (t.filter (fun c => !isPySpace c)) := by
    intro L hL
    have h2 := ((postJoin_sublist L).trans hL).filter (fun c => !isPySpace c)
    rw [filter_nonws_clean] at h2
    exact h2
  have shape : ∀ (L : List (List Char)) s, s ∈ L.filterMap postCandidate →
      ∃ c, s = c ++ ['।'] ∧ 3 < c.length := by
    intro L s hmem
    obtain ⟨raw, _, hpost⟩ := List.mem_filterMap.1 hmem
    obtain ⟨c, hc, hlen, _⟩ := postCandidate_shape raw s hpost
    exact ⟨c, hc, hlen⟩
  unfold split_into_sentences
  dsimp only
  by_cases hemp : (clean_text t).isEmpty = true
  · rw [if_pos hemp]
    exact ⟨List.nil_sublist _, by intro s hs; cases hs⟩
  · rw [if_neg hemp]
    split_ifs <;>
      exact ⟨key _ (reSplit_join_sublist _ _ _ _ _), fun s hs => shape _ s hs⟩

/-- C7 witness: the theorem applied at a concrete mixed input. -/
theorem segment_subsequence_witness :
    List.Sublist
      ((((split_into_sentences "कखगघ।।xabcde।ङचछजझ".data).map List.dropLast).join).filter
        (fun c => !isPySpace c))
      ("कखगघ।।xabcde।ङचछजझ".data.filter (fun c => !isPySpace c))
    ∧ ∀ s ∈ split_into_sentences "कखगघ।।xabcde।ङचछजझ".data,
        ∃ c, s = c ++ ['।'] ∧ 3 < c.length :=
  segment_subsequence_and_length "कखगघ।।xabcde।ङचछजझ".data

/-- C8 witness: the theorem applied at four following spaces. -/
theorem primary_split_scenario_witness :
    split_into_sentences
        ("यो पहिलो वाक्य छ।".data ++ List.replicate 4 ' ' ++ "दोस्रो वाक्य छ।".data) =
      ["यो पहिलो वाक्य छ।".data, "दोस्रो वाक्य छ।".data] :=
  (primary_split_scenario 4).2

/-! ### Re-segmentation lemmas (claim C9) -/

/-- One-step equation for `reSplit`. -/
theorem reSplit_cons (term : Char → Bool) (la reqSp skip : Bool) (c : Char)
    (cs : List Char) :
    reSplit term la reqSp skip (c :: cs) =
      if skip && isPySpace c then reSplit term la reqSp true cs
      else if term c && splitBoundary la reqSp cs then
        [c] :: reSplit term la reqSp true cs
      else
        match reSplit term la reqSp false cs with
        | [] => [[c]]
        | s :: ss => (c :: s) :: ss := rfl

/-- The skipping state is inert on a non-whitespace head. -/
theorem reSplit_skip_nonws (term : Char → Bool) (la reqSp : Bool) (c : Char)
    (cs : List Char) (hw : isPySpace c = false) :
    reSplit term la reqSp true (c :: cs) = reSplit term la reqSp false (c :: cs) := by
  rw [reSplit_cons, reSplit_cons, hw]
  rfl

/-- Walking a terminator-free prefix only extends the first segment. -/
theorem reSplit_walk (term : Char → Bool) (la reqSp : Bool) :
    ∀ (A B : List Char) (s : List Char) (ss : List (List Char)),
      (∀ ch ∈ A, term ch = false) →
      reSplit term la reqSp false B = s :: ss →
      reSplit term la reqSp false (A ++ B) = (A ++ s) :: ss := by
  intro A
  induction A with
  | nil =>
    intro B s ss _ hB
    simpa using hB
  | cons a A' ih =>
    intro B s ss hA hB
    have ha : term a = false := hA a (by simp)
    have ihr := ih B s ss (fun ch hch => hA ch (by simp [hch])) hB
    rw [List.cons_append, reSplit_cons, ha]
    simp only [Bool.false_and, Bool.and_self, if_false, Bool.false_eq_true, ihr,
      List.cons_append]

/-- The primary boundary fires after a danda followed by one space and a
non-whitespace target-script letter. -/
theorem reSplit_danda_boundary (h : Char) (R' : List Char)
    (hws : isPySpace h = false) (hnep : isNepaliChar h = true) :
    reSplit isDanda true false false ('।' :: ' ' :: h :: R') =
      ['।'] :: reSplit isDanda true false false (h :: R') := by
  have hb : splitBoundary true false (' ' :: h :: R') = true := by
    unfold splitBoundary
    rw [show List.dropWhile isPySpace (' ' :: h :: R') = h :: R' from by
      rw [List.dropWhile_cons_of_pos (by decide), List.dropWhile_cons_of_neg (by simp [hws])]]
    simp [hnep]
  rw [reSplit_cons]
  rw [if_neg (by simp), if_pos (by simp [isDanda, hb])]
  rw [reSplit_cons]
  rw [if_pos (by decide)]
  rw [reSplit_skip_nonws isDanda true false h R' hws]

/-- Unpacking `canonicalCore`. -/
theorem canonicalCore_spec (c : List Char) (h : canonicalCore c = true) :
    3 < c.length
    ∧ (∀ ch ∈ c, isWideTerm ch = false)
    ∧ (∀ ch ∈ c, isPySpace ch = true → ch = ' ')
    ∧ noWsRun c = true
    ∧ (∃ h0 r, c = h0 :: r ∧ isPySpace h0 = false ∧ stripSetChar h0 = false)
    ∧ (∃ g, c.getLast? = some g ∧ isPySpace g = false ∧ stripSetChar g = false) := by
  unfold canonicalCore at h
  rw [Bool.and_eq_true, Bool.and_eq_true, Bool.and_eq_true, Bool.and_eq_true] at h
  obtain ⟨⟨⟨⟨hlen, hall⟩, hrun⟩, hhead⟩, hlast⟩ := h
  refine ⟨of_decide_eq_true hlen, ?_, ?_, hrun, ?_, ?_⟩
  · intro ch hch
    have hx := List.all_eq_true.1 hall ch hch
    rw [Bool.and_eq_true] at hx
    simpa using hx.1
  · intro ch hch hws
    have hx := List.all_eq_true.1 hall ch hch
    rw [Bool.and_eq_true] at hx
    have h2 := hx.2
    rw [hws] at h2
    simpa using h2
  · cases c with
    | nil => exact absurd hhead (by simp)
    | cons h0 r =>
      rw [Bool.and_eq_true] at hhead
      exact ⟨h0, r, rfl, by simpa using hhead.1, by simpa using hhead.2⟩
  · cases hg : c.getLast? with
    | none => rw [hg] at hlast; exact absurd hlast (by simp)
    | some g =>
      rw [hg, Bool.and_eq_true] at hlast
      exact ⟨g, rfl, by simpa using hlast.1, by simpa using hlast.2⟩

/-- A canonical sentence is a canonical body plus the final danda. -/
theorem canonicalSentence_unpack (s : List Char) (h : canonicalSentence s = true) :
    ∃ c, s = c ++ ['।'] ∧ canonicalCore c = true := by
  unfold canonicalSentence at h
  cases hg : s.getLast? with
  | none => rw [hg] at h; cases h
  | some d =>
    rw [hg, Bool.and_eq_true] at h
    have hd : d = '।' := by simpa using h.1
    have hne : s ≠ [] := by
      intro he
      rw [he] at hg
      cases hg
    refine ⟨s.dropLast, ?_, h.2⟩
    have hgl : s.getLast hne = d := by
      have hx := List.getLast?_eq_getLast s hne
      rw [hg] at hx
      exact (Option.some.inj hx).symm
    have hs2 : s.dropLast ++ [s.getLast hne] = s := List.dropLast_append_getLast hne
    rw [hgl, hd] at hs2
    exact hs2.symm

/-- The wider terminator class contains the danda. -/
theorem isDanda_eq_false_of_wide (ch : Char) (h : isWideTerm ch = false) :
    isDanda ch = false := by
  unfold isWideTerm at h
  unfold isDanda
  cases hd : (ch == '।' : Bool) with
  | false => rfl
  | true => rw [hd] at h; simp at h

/-- `joinSp` on a list with at least two sentences. -/
theorem joinSp_cons_ne (s : List Char) (rest : List (List Char)) (h : rest ≠ []) :
    joinSp (s :: rest) = s ++ ' ' :: joinSp rest := by
  cases rest with
  | nil => exact absurd rfl h
  | cons t r => rfl

/-- The primary split recovers exactly the sentences of a canonical join:
each appended danda, followed by the single joining space and the Devanagari
head of the next sentence, fires the boundary, and no other character
does. -/
theorem reSplit_layer1_joinSp :
    ∀ (S : List (List Char)), S ≠ [] →
      (∀ s ∈ S, canonicalSentence s = true) →
      (∀ s ∈ S.tail, startsNepali s = true) →
      reSplit isDanda true false false (joinSp S) = S := by
  intro S
  induction S with
  | nil => intro h; exact absurd rfl h
  | cons s rest ih =>
    intro _ hcan hdev
    obtain ⟨c, hc, hcore⟩ := canonicalSentence_unpack s (hcan s (by simp))
    obtain ⟨_, hterm, _, _, _, _⟩ := canonicalCore_spec c hcore
    have hcfree : ∀ ch ∈ c, isDanda ch = false := fun ch hch =>
      isDanda_eq_false_of_wide ch (hterm ch hch)
    cases rest with
    | nil =>
      show reSplit isDanda true false false s = [s]
      rw [hc]
      exact reSplit_walk isDanda true false c ['।'] ['।'] [] hcfree rfl
    | cons s2 rest2 =>
      obtain ⟨c2, hc2, hcore2⟩ := canonicalSentence_unpack s2 (hcan s2 (by simp))
      obtain ⟨_, _, _, _, ⟨h2, r2, hc2eq, h2ws, _⟩, _⟩ := canonicalCore_spec c2 hcore2
      have hnep2 : isNepaliChar h2 = true := by
        have hx := hdev s2 (by simp)
        rw [hc2, hc2eq] at hx
        simpa [startsNepali] using hx
      rw [joinSp_cons_ne s (s2 :: rest2) (by simp)]
      have hR : ∃ R2, joinSp (s2 :: rest2) = h2 :: R2 := by
        cases rest2 with
        | nil =>
          refine ⟨r2 ++ ['।'], ?_⟩
          rw [show joinSp [s2] = s2 from rfl, hc2, hc2eq]
          rfl
        | cons s3 r3 =>
          refine ⟨r2 ++ ['।'] ++ ' ' :: joinSp (s3 :: r3), ?_⟩
          rw [joinSp_cons_ne s2 (s3 :: r3) (by simp), hc2, hc2eq]
          simp [List.cons_append, List.append_assoc]
      obtain ⟨R2, hR⟩ := hR
      have hIH : reSplit isDanda true false false (joinSp (s2 :: rest2)) = s2 :: rest2 :=
        ih (by simp) (fun x hx => hcan x (by simp [hx]))
          (fun x hx => hdev x (by simp [List.mem_cons]; exact Or.inr hx))
      rw [hR] at hIH
      rw [hR, hc]
      have hrearr : (c ++ ['।']) ++ ' ' :: h2 :: R2 = c ++ ('।' :: ' ' :: h2 :: R2) := by
        simp [List.append_assoc]
      rw [hrearr]
      have hB : reSplit isDanda true false false ('।' :: ' ' :: h2 :: R2) =
          ['।'] :: s2 :: rest2 := by
        rw [reSplit_danda_boundary h2 R2 h2ws hnep2, hIH]
      have hw := reSplit_walk isDanda true false c ('।' :: ' ' :: h2 :: R2) ['।']
        (s2 :: rest2) hcfree hB
      rw [hw]

/-- A single canonical sentence passes the secondary split unsplit. -/
theorem reSplit_wide_single_la (c : List Char)
    (hfree : ∀ ch ∈ c, isWideTerm ch = false) :
    reSplit isWideTerm true false false (c ++ ['।']) = [c ++ ['।']] :=
  reSplit_walk isWideTerm true false c ['।'] ['।'] [] hfree rfl

/-- A single canonical sentence passes the tertiary split unsplit. -/
theorem reSplit_wide_single_sp (c : List Char)
    (hfree : ∀ ch ∈ c, isWideTerm ch = false) :
    reSplit isWideTerm false true false (c ++ ['।']) = [c ++ ['।']] :=
  reSplit_walk isWideTerm false true c ['।'] ['।'] [] hfree rfl

/-- Post-processing is the identity on a canonical sentence: the strips
remove exactly the final danda, the length guard passes, and the danda is
re-appended. -/
theorem postCandidate_canonical (s : List Char) (h : canonicalSentence s = true) :
    postCandidate s = some s := by
  obtain ⟨c, hc, hcore⟩ := canonicalSentence_unpack s h
  obtain ⟨hlen, _, _, _, ⟨h0, r, hceq, h0ws, h0st⟩, ⟨g, hgl, hgws, hgst⟩⟩ :=
    canonicalCore_spec c hcore
  have hrev : (c ++ ['।']).reverse = '।' :: c.reverse := by simp
  have hcrev : ∃ rr, c.reverse = g :: rr := by
    have hx : c.reverse.head? = some g := by rw [List.head?_reverse]; exact hgl
    cases hcr : c.reverse with
    | nil => rw [hcr] at hx; cases hx
    | cons a b =>
      rw [hcr] at hx
      have ha : a = g := Option.some.inj hx
      exact ⟨b, by rw [ha]⟩
  obtain ⟨rr, hcrev⟩ := hcrev
  have hstrip1 : pyStrip stripSetChar (c ++ ['।']) = c := by
    have hdw : List.dropWhile stripSetChar (c ++ ['।']) = c ++ ['।'] := by
      rw [hceq, List.cons_append, List.dropWhile_cons_of_neg (by simp [h0st]),
        ← List.cons_append, ← hceq]
    have hdwr : List.dropWhile stripSetChar ((c ++ ['।']).reverse) = c.reverse := by
      rw [hrev, List.dropWhile_cons_of_pos (by decide), hcrev,
        List.dropWhile_cons_of_neg (by simp [hgst]), ← hcrev]
    unfold pyStrip dropEndWhile
    rw [hdw, hdwr, List.reverse_reverse]
  have hstrip2 : pyStrip isPySpace c = c := by
    have hdw2 : List.dropWhile isPySpace c = c := by
      rw [hceq, List.dropWhile_cons_of_neg (by simp [h0ws]), ← hceq]
    have hdwr2 : List.dropWhile isPySpace c.reverse = c.reverse := by
      rw [hcrev, List.dropWhile_cons_of_neg (by simp [hgws]), ← hcrev]
    unfold pyStrip dropEndWhile
    rw [hdw2, hdwr2, List.reverse_reverse]
  unfold postCandidate
  dsimp only
  rw [hc, hstrip1, hstrip2]
  have hcond : (!c.isEmpty && decide (3 < c.length)) = true := by
    rw [Bool.and_eq_true]
    exact ⟨by simp [hceq], decide_eq_true hlen⟩
  rw [if_pos hcond]

/-- Post-processing is the identity on a list of canonical sentences. -/
theorem filterMap_post_canonical :
    ∀ S : List (List Char), (∀ s ∈ S, canonicalSentence s = true) →
      S.filterMap postCandidate = S := by
  intro S
  induction S with
  | nil => intro _; rfl
  | cons s rest ih =>
    intro h
    simp only [List.filterMap_cons, postCandidate_canonical s (h s (by simp)),
      ih (fun x hx => h x (by simp [hx]))]

/-- The newline replacement is the identity when no newline occurs. -/
theorem map_nl_id (l : List Char) (h : ∀ ch ∈ l, (ch == '\n') = false) :
    l.map (fun c => if c == '\n' then ' ' else c) = l := by
  induction l with
  | nil => rfl
  | cons c cs ih =>
    rw [List.map_cons, if_neg (by simp [h c (by simp)]),
      ih (fun x hx => h x (by simp [hx]))]

/-- `noWsRun` of a tail. -/
theorem noWsRun_tail (c : Char) (cs : List Char) (h : noWsRun (c :: cs) = true) :
    noWsRun cs = true := by
  cases cs with
  | nil => rfl
  | cons d cs' =>
    unfold noWsRun at h
    rw [Bool.and_eq_true] at h
    exact h.2

/-- Collapsing is the identity on text whose whitespace is isolated plain
spaces (and whose head is not whitespace when a run is already open). -/
theorem collapse_id :
    ∀ (l : List Char) (b : Bool),
      (∀ ch ∈ l, isPySpace ch = true → ch = ' ') →
      noWsRun l = true →
      (b = true → ∀ x, l.head? = some x → isPySpace x = false) →
      collapseWs b l = l := by
  intro l
  induction l with
  | nil => intro b _ _ _; rfl
  | cons c cs ih =>
    intro b hws hrun hhead
    cases hw : isPySpace c with
    | true =>
      have hc : c = ' ' := hws c (by simp) hw
      cases b with
      | true => exact absurd hw (by simp [hhead rfl c rfl])
      | false =>
        have hcs : collapseWs true cs = cs := by
          refine ih true (fun x hx h2 => hws x (by simp [hx]) h2) (noWsRun_tail c cs hrun) ?_
          intro _ x hx
          cases cs with
          | nil => cases hx
          | cons d cs' =>
            have hd : d = x := Option.some.inj hx
            unfold noWsRun at hrun
            rw [Bool.and_eq_true] at hrun
            have h1 := hrun.1
            rw [hw] at h1
            subst hd
            simpa using h1
        show collapseWs false (c :: cs) = c :: cs
        unfold collapseWs
        rw [hw]
        simp only [if_true, if_false, Bool.false_eq_true]
        rw [hcs, hc]
    | false =>
      have hcs : collapseWs false cs = cs :=
        ih false (fun x hx h2 => hws x (by simp [hx]) h2) (noWsRun_tail c cs hrun)
          (fun h => absurd h (by simp))
      show collapseWs b (c :: cs) = c :: cs
      unfold collapseWs
      rw [hw]
      simp only [Bool.false_eq_true, if_false]
      rw [hcs]

/-- `dropWhile` is the identity when the head fails the predicate. -/
theorem dropWhile_eq_self_of_head (p : Char → Bool) (l : List Char)
    (h : ∀ x, l.head? = some x → p x = false) : l.dropWhile p = l := by
  cases l with
  | nil => rfl
  | cons c cs => rw [List.dropWhile_cons_of_neg (by simp [h c rfl])]

/-- The whitespace strip is the identity when both ends are not
whitespace. -/
theorem pyStrip_ws_id (l : List Char)
    (hh : ∀ x, l.head? = some x → isPySpace x = false)
    (hl : ∀ x, l.getLast? = some x → isPySpace x = false) :
    pyStrip isPySpace l = l := by
  unfold pyStrip dropEndWhile
  rw [dropWhile_eq_self_of_head _ _ hh]
  rw [dropWhile_eq_self_of_head _ _ (fun x hx => hl x (by rw [← List.head?_reverse]; exact hx))]
  rw [List.reverse_reverse]

/-- `clean_text` is the identity on already-clean text. -/
theorem clean_text_id (l : List Char)
    (hnl : ∀ ch ∈ l, (ch == '\n') = false)
    (hws : ∀ ch ∈ l, isPySpace ch = true → ch = ' ')
    (hrun : noWsRun l = true)
    (hh : ∀ x, l.head? = some x → isPySpace x = false)
    (hl : ∀ x, l.getLast? = some x → isPySpace x = false) :
    clean_text l = l := by
  unfold clean_text
  rw [map_nl_id l hnl, collapse_id l false hws hrun (fun h => absurd h (by simp)),
    pyStrip_ws_id l hh hl]

/-- `noWsRun` across an append with a whitespace-free junction. -/
theorem noWsRun_append :
    ∀ (A B : List Char), noWsRun A = true → noWsRun B = true →
      (∀ g, A.getLast? = some g → ∀ x, B.head? = some x →
        (isPySpace g && isPySpace x) = false) →
      noWsRun (A ++ B) = true := by
  intro A
  induction A with
  | nil => intro B _ hB _; simpa using hB
  | cons a A' ih =>
    intro B hA hB hj
    cases A' with
    | nil =>
      cases B with
      | nil => rfl
      | cons b B' =>
        show noWsRun (a :: b :: B') = true
        unfold noWsRun
        rw [Bool.and_eq_true]
        exact ⟨by simp [hj a rfl b rfl], hB⟩
    | cons a2 A'' =>
      have htail := ih B (noWsRun_tail a (a2 :: A'') hA) hB
        (fun g hg x hx => hj g (by rw [List.getLast?_cons_cons]; exact hg) x hx)
      show noWsRun (a :: a2 :: (A'' ++ B)) = true
      unfold noWsRun
      rw [Bool.and_eq_true]
      constructor
      · unfold noWsRun at hA
        rw [Bool.and_eq_true] at hA
        exact hA.1
      · exact htail

/-- The cleanliness facts of a canonical sentence. -/
theorem canonicalSentence_facts (s : List Char) (h : canonicalSentence s = true) :
    s ≠ []
    ∧ (∀ ch ∈ s, (ch == '\n') = false)
    ∧ (∀ ch ∈ s, isPySpace ch = true → ch = ' ')
    ∧ noWsRun s = true
    ∧ (∀ x, s.head? = some x → isPySpace x = false)
    ∧ (∀ x, s.getLast? = some x → isPySpace x = false) := by
  obtain ⟨c, hc, hcore⟩ := canonicalSentence_unpack s h
  obtain ⟨hlen, hterm, hws, hrun, ⟨h0, r, hceq, h0ws, h0st⟩, ⟨g, hgl, hgws, hgst⟩⟩ :=
    canonicalCore_spec c hcore
  subst hc
  refine ⟨by simp, ?_, ?_, ?_, ?_, ?_⟩
  · intro ch hch
    rcases List.mem_append.1 hch with hin | hin
    · by_cases he : ch = '\n'
      · subst he
        exact absurd (hws _ hin (by decide)) (by decide)
      · simpa using he
    · have he : ch = '।' := by simpa using hin
      subst he
      decide
  · intro ch hch hw
    rcases List.mem_append.1 hch with hin | hin
    · exact hws ch hin hw
    · have he : ch = '।' := by simpa using hin
      rw [he] at hw
      exact absurd hw (by decide)
  · refine noWsRun_append c ['।'] hrun rfl ?_
    intro g' _ x hx
    have hx' : '।' = x := Option.some.inj hx
    rw [← hx']
    simp [show isPySpace '।' = false from by decide]
  · intro x hx
    rw [hceq, List.cons_append] at hx
    have hax : h0 = x := Option.some.inj hx
    rw [← hax]
    exact h0ws
  · intro x hx
    rw [List.getLast?_concat] at hx
    have hax : '।' = x := Option.some.inj hx
    rw [← hax]
    decide

/-- A join headed by a non-empty sentence is non-empty. -/
theorem joinSp_ne_nil (s : List Char) (rest : List (List Char)) (hs : s ≠ []) :
    joinSp (s :: rest) ≠ [] := by
  cases rest with
  | nil => simpa [joinSp] using hs
  | cons t r =>
    rw [joinSp_cons_ne s (t :: r) (by simp)]
    simp

/-- The cleanliness facts of a canonical join. -/
theorem joinSp_facts :
    ∀ S : List (List Char), (∀ s ∈ S, canonicalSentence s = true) →
      (∀ ch ∈ joinSp S, (ch == '\n') = false)
      ∧ (∀ ch ∈ joinSp S, isPySpace ch = true → ch = ' ')
      ∧ noWsRun (joinSp S) = true
      ∧ (∀ x, (joinSp S).head? = some x → isPySpace x = false)
      ∧ (∀ x, (joinSp S).getLast? = some x → isPySpace x = false) := by
  intro S
  induction S with
  | nil =>
    intro _
    refine ⟨by simp [joinSp], by simp [joinSp], rfl, ?_, ?_⟩
    · intro x hx
      cases hx
    · intro x hx
      cases hx
  | cons s rest ih =>
    intro hcan
    obtain ⟨hne, hnl, hws, hrun, hh, hl⟩ := canonicalSentence_facts s (hcan s (by simp))
    cases rest with
    | nil => exact ⟨hnl, hws, hrun, hh, hl⟩
    | cons s2 rest2 =>
      obtain ⟨inl, iws, irun, ihh, ihl⟩ := ih (fun x hx => hcan x (by simp [hx]))
      have hjne : joinSp (s2 :: rest2) ≠ [] := by
        obtain ⟨hne2, _, _, _, _, _⟩ := canonicalSentence_facts s2 (hcan s2 (by simp))
        exact joinSp_ne_nil s2 rest2 hne2
      obtain ⟨y, Y, hyY⟩ := List.exists_cons_of_ne_nil hjne
      have hyws : isPySpace y = false := ihh y (by rw [hyY]; rfl)
      rw [joinSp_cons_ne s (s2 :: rest2) (by simp)]
      refine ⟨?_, ?_, ?_, ?_, ?_⟩
      · intro ch hch
        rcases List.mem_append.1 hch with hin | hin
        · exact hnl ch hin
        · rcases List.mem_cons.1 hin with he | hin2
          · subst he; decide
          · exact inl ch hin2
      · intro ch hch hw
        rcases List.mem_append.1 hch with hin | hin
        · exact hws ch hin hw
        · rcases List.mem_cons.1 hin with he | hin2
          · exact he
          · exact iws ch hin2 hw
      · refine noWsRun_append s (' ' :: joinSp (s2 :: rest2)) hrun ?_ ?_
        · rw [hyY]
          show noWsRun (' ' :: y :: Y) = true
          unfold noWsRun
          rw [Bool.and_eq_true]
          refine ⟨by simp [hyws], ?_⟩
          rw [← hyY]
          exact irun
        · intro g hg x hx
          have hx' : ' ' = x := Option.some.inj hx
          rw [← hx']
          simp [hl g hg]
      · intro x hx
        obtain ⟨a, s', hs'⟩ := List.exists_cons_of_ne_nil hne
        rw [hs', List.cons_append] at hx
        have hax : a = x := Option.some.inj hx
        rw [← hax]
        exact hh a (by rw [hs']; rfl)
      · intro x hx
        rw [List.getLast?_append_cons] at hx
        rw [hyY, List.getLast?_cons_cons, ← hyY] at hx
        exact ihl x hx

/-- Re-segmentation of a canonical join gives back exactly the
sentences. -/
theorem segment_joinSp (S : List (List Char))
    (hcan : ∀ s ∈ S, canonicalSentence s = true)
    (hdev : ∀ s ∈ S.tail, startsNepali s = true) :
    split_into_sentences (joinSp S) = S := by
  cases S with
  | nil => rfl
  | cons s rest =>
    obtain ⟨hjnl, hjws, hjrun, hjh, hjl⟩ := joinSp_facts (s :: rest) hcan
    obtain ⟨hne, _, _, _, _, _⟩ := canonicalSentence_facts s (hcan s (by simp))
    have hclean : clean_text (joinSp (s :: rest)) = joinSp (s :: rest) :=
      clean_text_id _ hjnl hjws hjrun hjh hjl
    have hl1 : reSplit isDanda true false false (joinSp (s :: rest)) = s :: rest :=
      reSplit_layer1_joinSp (s :: rest) (by simp) hcan hdev
    have hjne : joinSp (s :: rest) ≠ [] := joinSp_ne_nil s rest hne
    have hemp : (joinSp (s :: rest)).isEmpty = false := by
      cases hj : joinSp (s :: rest) with
      | nil => exact absurd hj hjne
      | cons a b => rfl
    unfold split_into_sentences
    dsimp only
    rw [hclean, hl1, hemp]
    simp only [Bool.false_eq_true, if_false]
    cases rest with
    | nil =>
      obtain ⟨c, hc, hcore⟩ := canonicalSentence_unpack s (hcan s (by simp))
      obtain ⟨_, hterm, _, _, _, _⟩ := canonicalCore_spec c hcore
      rw [show joinSp [s] = s from rfl]
      rw [if_pos (by simp : ([s] : List (List Char)).length ≤ 1)]
      rw [hc]
      rw [reSplit_wide_single_la c hterm]
      rw [if_pos (by simp : ([c ++ ['।']] : List (List Char)).length ≤ 1)]
      rw [reSplit_wide_single_sp c hterm]
      rw [← hc]
      exact filterMap_post_canonical [s] (by
        intro x hx
        have hxs : x = s := by simpa using hx
        rw [hxs]
        exact hcan s (by simp))
    | cons s2 rest2 =>
      rw [if_neg (show ¬((s :: s2 :: rest2) : List (List Char)).length ≤ 1 from by
        simp only [List.length_cons]; omega)]
      rw [if_neg (show ¬((s :: s2 :: rest2) : List (List Char)).length ≤ 1 from by
        simp only [List.length_cons]; omega)]
      exact filterMap_post_canonical (s :: s2 :: rest2) hcan

/-- C9 counterexample: for the input `"कखगघ।।xabcde।ङचछजझ"` the segmenter
returns three sentences, but re-segmenting their single-space re-join
merges the first two (the second sentence starts with a Latin letter, so
the primary boundary does not fire at its junction): `segment` is not
idempotent over re-joining. -/
theorem segment_rejoin_counterexample :
    split_into_sentences (joinSp (split_into_sentences "कखगघ।।xabcde।ङचछजझ".data)) ≠
      split_into_sentences "कखगघ।।xabcde।ङचछजझ".data := by
  decide

/-- C9 (amended): `segment` is idempotent over re-joining for texts whose
segmentation is canonical — every sentence is its body (no terminator
glyphs before the final danda, whitespace only as isolated plain spaces,
ends that survive stripping, length above the threshold) plus the danda,
and every sentence after the first begins with a letter of the target
script.  In general re-segmentation can merge or move boundaries, as the
counterexample shows. -/
theorem segment_rejoin_idempotent (t : List Char)
    (hcan : ∀ s ∈ split_into_sentences t, canonicalSentence s = true)
    (hdev : ∀ s ∈ (split_into_sentences t).tail, startsNepali s = true) :
    split_into_sentences (joinSp (split_into_sentences t)) = split_into_sentences t :=
  segment_joinSp (split_into_sentences t) hcan hdev

/-- C9 witness: a two-sentence Devanagari text satisfying the hypotheses. -/
theorem segment_rejoin_idempotent_witness :
    (∀ s ∈ split_into_sentences "कखगघ। ङचछजझ।".data, canonicalSentence s = true)
    ∧ (∀ s ∈ (split_into_sentences "कखगघ। ङचछजझ।".data).tail, startsNepali s = true)
    ∧ split_into_sentences (joinSp (split_into_sentences "कखगघ। ङचछजझ।".data)) =
        split_into_sentences "कखगघ। ङचछजझ।".data :=
  ⟨by decide, by decide, segment_rejoin_idempotent "कखगघ। ङचछजझ।".data (by decide) (by decide)⟩

end Setu
